import Mathlib

/-!
Verification development for the BenPak package-lifecycle engine
(`src/package_manager.py`).  The Python code is shallowly embedded:
file contents are lists of characters, the install subtree is a small
state record, external effects (process enumeration, unpack tools,
user input, rmtree outcomes) are explicit parameters of the embedded
functions.
-/

deriving instance DecidableEq for Except

/-- Boolean test that the first character list is a prefix of the second,
mirroring Python's `str.startswith` at the character level. -/
def isPre : List Char → List Char → Bool
  | [], _ => true
  | _ :: _, [] => false
  | a :: as, b :: bs => a == b && isPre as bs

/-- Boolean substring test mirroring Python's `needle in haystack` on strings:
true iff `needle` occurs contiguously inside the haystack. -/
def containsSub (needle : List Char) : List Char → Bool
  | [] => isPre needle []
  | c :: rest => isPre needle (c :: rest) || containsSub needle rest

/-- Number of start positions at which `needle` occurs in the haystack
(used to express "exactly one marker block"). -/
def countOcc (needle : List Char) : List Char → Nat
  | [] => if isPre needle [] then 1 else 0
  | c :: rest => (if isPre needle (c :: rest) then 1 else 0) + countOcc needle rest

/-- Split a character list on newline characters, mirroring Python's
`str.split('\n')` (an empty string yields one empty piece). -/
def splitLines : List Char → List (List Char)
  | [] => [[]]
  | c :: rest =>
    if c = '\n' then [] :: splitLines rest
    else
      match splitLines rest with
      | [] => [[c]]
      | l :: ls => (c :: l) :: ls

/-- Join lines with newline separators, mirroring Python's `'\n'.join(lines)`. -/
def joinLines : List (List Char) → List Char
  | [] => []
  | [l] => l
  | l :: ls => l ++ '\n' :: joinLines ls

/-- Characters stripped by Python's `str.strip()` (ASCII whitespace). -/
def pyIsSpace (c : Char) : Bool :=
  c == ' ' || c == '\t' || c == '\n' || c == '\r' || c == Char.ofNat 11 || c == Char.ofNat 12

/-- Python's `str.strip()`: drop leading and trailing whitespace. -/
def pyStrip (s : List Char) : List Char :=
  ((s.dropWhile pyIsSpace).reverse.dropWhile pyIsSpace).reverse

/-- Python's `str.lower()` (ASCII case folding suffices for the names involved). -/
def lowerStr (s : List Char) : List Char := s.map Char.toLower

/-! ## Install-subtree state (`<install_root>/<identifier>`) -/

/-- State of the sidecar `.version` file inside a package subtree:
absent, present but unreadable (`read_text` raises), or readable with content. -/
inductive VFile
  | vAbsent
  | vUnreadable
  | vReadable (content : List Char)
deriving DecidableEq

/-- State of one package's subtree under the install root: whether the
directory exists, whether it has any entries, and its `.version` file. -/
structure PkgState where
  dirExists : Bool
  dirNonempty : Bool
  version : VFile
deriving DecidableEq

/-- The subtree state after `shutil.rmtree(package_dir)` removed it. -/
def removedState : PkgState := ⟨false, false, VFile.vAbsent⟩

/-- Embeds `PackageManager.is_package_installed`: the directory exists and
`any(package_dir.iterdir())` holds. -/
def is_package_installed (s : PkgState) : Bool := s.dirExists && s.dirNonempty

/-- Existence check `version_file.exists()` on the `.version` file. -/
def versionFileExists : VFile → Bool
  | VFile.vAbsent => false
  | _ => true

/-- Embeds `version_file.read_text()`: returns the content or raises. -/
def readVersionText : VFile → Except Unit (List Char)
  | VFile.vReadable c => Except.ok c
  | _ => Except.error ()

/-- Embeds `PackageManager.get_installed_version`: if the `.version` file
exists, try to read and strip it, swallowing any read error (`except: pass`),
and fall through to `None`.  The embedding is a total function into `Option`,
so it can never raise. -/
def get_installed_version (s : PkgState) : Option (List Char) :=
  if versionFileExists s.version then
    match readVersionText s.version with
    | Except.ok c => some (pyStrip c)
    | Except.error _ => none
  else none

/-! ## Archive kinds, download verification and extraction -/

/-- The declared archive kinds (`extract_method` field of a descriptor). -/
inductive ExtractMethod
  | tar_gz
  | tar_bz2
  | tar_xz
  | deb
  | appimage
deriving DecidableEq

/-- Actual content kind of a downloaded artifact, at the granularity `file(1)`
and the unpack tools distinguish. -/
inductive ContentKind
  | gzipTar
  | plainTar
  | bzip2Tar
  | xzTar
  | debArchive
  | appimageBin
  | plainText
deriving DecidableEq

/-- Models the check on `file(1)` output in `download_package`: the output
contains "gzip compressed data" or "tar archive".  A gzip artifact reports
the former, an uncompressed tar archive the latter; all other kinds
report neither. -/
def fileReportsGzipOrTar : ContentKind → Bool
  | ContentKind.gzipTar => true
  | ContentKind.plainTar => true
  | _ => false

/-- Models success of the external unpack step of `extract_package` for each
declared method: `tar -xzf`/`-xjf`/`-xJf` and `dpkg-deb -x` fail on content of
the wrong kind; the appimage branch (copy + chmod + wrapper) succeeds on any
content. -/
def extractToolSucceeds : ExtractMethod → ContentKind → Bool
  | ExtractMethod.tar_gz, ContentKind.gzipTar => true
  | ExtractMethod.tar_bz2, ContentKind.bzip2Tar => true
  | ExtractMethod.tar_xz, ContentKind.xzTar => true
  | ExtractMethod.deb, ContentKind.debArchive => true
  | ExtractMethod.appimage, _ => true
  | _, _ => false

/-- Specification-side notion used by claim C2: the artifact's actual content
matches the declared archive kind. -/
def declaredKindMatches : ExtractMethod → ContentKind → Bool
  | ExtractMethod.tar_gz, ContentKind.gzipTar => true
  | ExtractMethod.tar_bz2, ContentKind.bzip2Tar => true
  | ExtractMethod.tar_xz, ContentKind.xzTar => true
  | ExtractMethod.deb, ContentKind.debArchive => true
  | ExtractMethod.appimage, ContentKind.appimageBin => true
  | _, _ => false

/-- Embeds the verification logic of `PackageManager.download_package`
(the network transfer itself is abstracted by `httpOk`): only for the
`tar_gz` method is the downloaded file's type checked, via `file(1)` output;
a failed check raises after deleting the temporary directory.  The package
subtree is never touched here. -/
def download_package (m : ExtractMethod) (k : ContentKind) (httpOk : Bool) :
    Except Unit Unit :=
  if httpOk = false then Except.error ()
  else if m = ExtractMethod.tar_gz ∧ fileReportsGzipOrTar k = false then Except.error ()
  else Except.ok ()

/-- Environmental outcomes that `extract_package` depends on: whether the
unpack tool fails for reasons other than content kind, whether writing the
`.version` file succeeds (its failure is swallowed by `except: pass`),
and the version string that would be written. -/
structure ExtractEnv where
  toolOk : Bool
  versionWriteOk : Bool
  versionStr : List Char
deriving DecidableEq

/-- Embeds `PackageManager.extract_package`.  Any existing subtree is first
removed and the directory recreated; then the unpack tool runs; on success the
`.version` file is written (best effort) and `True` returned; on any failure
the except-block removes the partially populated subtree
(`shutil.rmtree(package_dir, ignore_errors=True)`) and re-raises. -/
def extract_package (m : ExtractMethod) (k : ContentKind) (env : ExtractEnv)
    (_s : PkgState) : Except Unit Bool × PkgState :=
  let cleared : PkgState := ⟨true, false, VFile.vAbsent⟩
  if extractToolSucceeds m k && env.toolOk then
    (Except.ok true,
     ⟨true, true, if env.versionWriteOk then VFile.vReadable env.versionStr else cleared.version⟩)
  else
    (Except.error (), removedState)

/-- Embeds the download-then-extract part of `PackageManager.install_package`.
The third component records whether the install touched (cleared or
recreated) the package subtree. -/
def install_package (m : ExtractMethod) (k : ContentKind) (httpOk : Bool)
    (env : ExtractEnv) (s : PkgState) : Except Unit Bool × PkgState × Bool :=
  match download_package m k httpOk with
  | Except.error _ => (Except.error (), s, false)
  | Except.ok _ =>
    let r := extract_package m k env s
    (r.1, r.2, true)

/-! ## Uninstall -/

/-- Environmental inputs of `PackageManager.uninstall_package`: the current
subtree state, the `force_kill` flag, the matching processes found by
`_find_running_processes`, the raw interactive `input()` answer, the result of
`_kill_application_processes`, the matching processes that would be found
after the 2-second grace period, and whether `shutil.rmtree(package_dir)`
succeeds (a false value stands for a `PermissionError`). -/
structure UninstallEnv where
  state : PkgState
  forceKill : Bool
  running : List Nat
  choiceRaw : List Char
  killSuccess : Bool
  aliveAfterGrace : List Nat
  rmtreeOk : Bool
deriving DecidableEq

/-- Outcome of an uninstall call: a returned boolean or a raised exception. -/
inductive UOutcome
  | ret (b : Bool)
  | exn
deriving DecidableEq

/-- Result of an uninstall call: outcome, final subtree state, and whether
PATH and desktop deregistration were performed. -/
structure UResult where
  outcome : UOutcome
  state : PkgState
  pathDeregistered : Bool
  desktopRemoved : Bool
deriving DecidableEq

/-- The tail of `uninstall_package` after the process checks: remove the PATH
entries and desktop shortcuts, then `shutil.rmtree(package_dir)`; a
`PermissionError` there is re-raised (after a diagnostic re-probe) as an
exception. -/
def uninstallProceed (e : UninstallEnv) : UResult :=
  if e.rmtreeOk then ⟨UOutcome.ret true, removedState, true, true⟩
  else ⟨UOutcome.exn, e.state, true, true⟩

/-- Embeds `PackageManager.uninstall_package`.  A missing directory returns
`False` immediately.  With matching processes and `force_kill=False` the user
is prompted: answer "1" kills (aborting with `False` if the kill reports
failure), any other answer cancels with `False`.  With `force_kill=True` the
kill result is ignored.  After a kill the code sleeps 2 seconds and then
proceeds directly to deregistration and `rmtree`; `aliveAfterGrace` is never
consulted. -/
def uninstall_package (e : UninstallEnv) : UResult :=
  if e.state.dirExists = false then ⟨UOutcome.ret false, e.state, false, false⟩
  else if e.running ≠ [] ∧ e.forceKill = false then
    if pyStrip e.choiceRaw = ("1").toList then
      if e.killSuccess then uninstallProceed e
      else ⟨UOutcome.ret false, e.state, false, false⟩
    else ⟨UOutcome.ret false, e.state, false, false⟩
  else uninstallProceed e

/-- Claim C1's notion of "blocking processes were detected and terminated":
processes were found, and either the caller forced or the user chose
terminate-and-continue with a successful kill. -/
def terminationHappened (e : UninstallEnv) : Prop :=
  e.running ≠ [] ∧
    (e.forceKill = true ∨ (pyStrip e.choiceRaw = ("1").toList ∧ e.killSuccess = true))

/-- Claim C1 as stated: after a termination, if any matching process is still
alive after the grace period, the uninstall aborts and the subtree is left
intact. -/
def C1claim : Prop :=
  ∀ e : UninstallEnv, e.state.dirExists = true → terminationHappened e →
    e.aliveAfterGrace ≠ [] →
    (uninstall_package e).state = e.state ∧ (uninstall_package e).outcome ≠ UOutcome.ret true

/-- Claim C2 as stated: whenever the artifact's content does not match the
declared kind, the install fails with an error and the target subtree is
neither created nor modified. -/
def C2claim : Prop :=
  ∀ (m : ExtractMethod) (k : ContentKind) (env : ExtractEnv) (s : PkgState),
    declaredKindMatches m k = false →
    (install_package m k true env s).1 = Except.error () ∧
    (install_package m k true env s).2.2 = false ∧
    (install_package m k true env s).2.1 = s

/-! ## Shell startup-file registration and deregistration -/

/-- The package-scoped marker comment `f"# BenPak - {package_id}"`. -/
def benpakMarker (pid : List Char) : List Char := ("# BenPak - ").toList ++ pid

/-- The PATH-export line written for a package, per shell kind:
`set -gx PATH "<dir>" $PATH` for fish, `export PATH="<dir>:$PATH"` otherwise. -/
def exportLineFor (isFish : Bool) (execDir : List Char) : List Char :=
  if isFish then ("set -gx PATH \"").toList ++ execDir ++ ("\" $PATH").toList
  else ("export PATH=\"").toList ++ execDir ++ (":$PATH\"").toList

/-- Models `if content and not content.endswith('\n'): content += '\n'`. -/
def ensureTrailingNewline (c : List Char) : List Char :=
  if c ≠ [] ∧ c.getLast? ≠ some '\n' then c ++ ['\n'] else c

/-- Embeds `PackageManager._add_app_path_to_shell_config` on the file content:
if the package's marker already occurs anywhere in the content, return `False`
and leave the content unchanged; otherwise append a blank separator, the
marker comment line and the export line, and return `True`. -/
def addAppPathToShellConfig (pid execDir : List Char) (isFish : Bool)
    (content : List Char) : Bool × List Char :=
  let marker := benpakMarker pid
  if containsSub marker content then (false, content)
  else
    (true,
     ensureTrailingNewline content ++
       '\n' :: (marker ++ '\n' :: (exportLineFor isFish execDir ++ ['\n'])))

/-- The substring `"export PATH="` tested by the deregistration loop. -/
def exportPatBash : List Char := ("export PATH=").toList

/-- The substring `"set -gx PATH"` tested by the deregistration loop. -/
def exportPatFish : List Char := ("set -gx PATH").toList

/-- Embeds the line loop of `PackageManager._remove_app_path_from_shell_config`:
a line containing the marker is dropped and sets `skip_next`; while
`skip_next` is set, the next line containing `"export PATH="` or
`"set -gx PATH"` is dropped and clears the flag; every other line is kept
(with the flag unchanged). -/
def removeLoop (marker : List Char) : Bool → List (List Char) → List (List Char)
  | _, [] => []
  | skipNext, l :: rest =>
    if containsSub marker l then removeLoop marker true rest
    else if skipNext && (containsSub exportPatBash l || containsSub exportPatFish l) then
      removeLoop marker false rest
    else l :: removeLoop marker skipNext rest

/-- Embeds `PackageManager._remove_app_path_from_shell_config` on the file
content: split into lines, run the removal loop, rejoin, and report whether
the content changed (the file is rewritten only in that case). -/
def removeAppPathFromShellConfig (pid : List Char) (content : List Char) :
    Bool × List Char :=
  let newContent := joinLines (removeLoop (benpakMarker pid) false (splitLines content))
  (decide (newContent ≠ content), newContent)

/-- Specification-side model for claim C5, following the spec's words:
deregistration removes exactly the marker line and the line immediately
following it, at every occurrence of the marker. -/
def specRemoveLines (marker : List Char) : List (List Char) → List (List Char)
  | [] => []
  | [l] => if containsSub marker l then [] else [l]
  | l :: e :: rest =>
    if containsSub marker l then specRemoveLines marker rest
    else l :: specRemoveLines marker (e :: rest)

/-- Well-formed startup-file contents for a marker: every line containing the
marker is immediately followed by an export line (itself free of the marker),
as `register` always writes them. -/
inductive MarkerWF (marker : List Char) : List (List Char) → Prop
  | nil : MarkerWF marker []
  | plain {l rest} : containsSub marker l = false →
      MarkerWF marker rest → MarkerWF marker (l :: rest)
  | block {l e rest} : containsSub marker l = true →
      containsSub marker e = false →
      (containsSub exportPatBash e || containsSub exportPatFish e) = true →
      MarkerWF marker rest → MarkerWF marker (l :: e :: rest)

/-- Claim C5 as stated: the code's deregistration agrees with removing exactly
the marker line and the line immediately following it, on every content, and
a missing marker is a no-op returning false. -/
def C5claim : Prop :=
  ∀ (pid content : List Char),
    ((removeAppPathFromShellConfig pid content).2
        = joinLines (specRemoveLines (benpakMarker pid) (splitLines content))) ∧
    (containsSub (benpakMarker pid) content = false →
      removeAppPathFromShellConfig pid content = (false, content))

/-! ## Executable discovery and scoring (`create_path_symlink`) -/

/-- One executable candidate collected by the walk in `create_path_symlink`:
the file name and the directory (walk root) it was found in. -/
structure RawCand where
  file : List Char
  root : List Char
deriving DecidableEq

/-- The name filter applied during the walk: the lowercased file name equals
or starts with the lowercased executable name. -/
def passesNameFilter (execName : List Char) (c : RawCand) : Bool :=
  lowerStr c.file == lowerStr execName || isPre (lowerStr execName) (lowerStr c.file)

/-- The helper-tool name patterns excluded from the +25 bonus. -/
def helperSuffixes : List (List Char) :=
  [("-tunnel").toList, ("-cli").toList, ("-helper").toList]

/-- Embeds the score computation of `create_path_symlink`: +100 for an exact
(case-insensitive) name match, +50 if `"bin" in root`, +25 if no helper-tool
pattern occurs in the lowercased file name. -/
def scoreOf (execName : List Char) (c : RawCand) : Nat :=
  (if lowerStr c.file == lowerStr execName then 100 else 0) +
  (if containsSub (("bin").toList) c.root then 50 else 0) +
  (if helperSuffixes.any (fun suf => containsSub suf (lowerStr c.file)) then 0 else 25)

/-- Stable descending insertion used to model Python's stable
`candidates.sort(key=lambda x: x[0], reverse=True)`: an element is inserted
before the first strictly smaller key, and after equal keys, so that elements
inserted earlier (later in the original list) stay behind. -/
def insertDesc {α : Type} (x : Nat × α) : List (Nat × α) → List (Nat × α)
  | [] => [x]
  | y :: ys => if x.1 ≥ y.1 then x :: y :: ys else y :: insertDesc x ys

/-- Stable descending sort by score (Python's `sort(reverse=True)` on
`(score, candidate)` pairs). -/
def sortDesc {α : Type} : List (Nat × α) → List (Nat × α)
  | [] => []
  | x :: xs => insertDesc x (sortDesc xs)

/-- Embeds the selection step of `create_path_symlink`: score every candidate,
sort stably by descending score, and take the first element (`candidates[0]`). -/
def selectExecutable (execName : List Char) (cands : List RawCand) :
    Option (Nat × RawCand) :=
  (sortDesc (cands.map (fun c => (scoreOf execName c, c)))).head?

/-! ## Update check -/

/-- The fields of an available-package record used by `check_for_updates`. -/
structure AvailPkg where
  pid : List Char
  version : Option (List Char)
deriving DecidableEq

/-- One entry of the list returned by `check_for_updates`. -/
structure UpdateEntry where
  pkg : AvailPkg
  installedVersion : List Char
  latestVersion : List Char
deriving DecidableEq

/-- Embeds `PackageManager.check_for_updates` over the available packages and
a map from identifier to subtree state: for each installed package with a
truthy (non-`None`, non-empty) installed version and latest version, report an
update iff the two strings are unequal (`!=` on strings, no structured
version ordering). -/
def check_for_updates (pkgs : List AvailPkg) (st : List Char → PkgState) :
    List UpdateEntry :=
  pkgs.filterMap (fun p =>
    if is_package_installed (st p.pid) then
      match get_installed_version (st p.pid), p.version with
      | some iv, some lv =>
        if iv ≠ [] ∧ lv ≠ [] ∧ iv ≠ lv then some ⟨p, iv, lv⟩ else none
      | _, _ => none
    else none)

/-! ## Lemmas about the string helpers -/

theorem containsSub_nil_left (h : List Char) : containsSub [] h = true := by
  induction h with
  | nil => rfl
  | cons c rest ih => simp [containsSub, isPre]

theorem isPre_length {a : List Char} : ∀ {b : List Char}, isPre a b = true → a.length ≤ b.length := by
  induction a with
  | nil => intro b _; simp
  | cons x xs ih =>
    intro b h
    cases b with
    | nil => simp [isPre] at h
    | cons y ys =>
      simp only [isPre, Bool.and_eq_true] at h
      simpa using ih h.2

theorem isPre_self_append (n z : List Char) : isPre n (n ++ z) = true := by
  induction n with
  | nil => rfl
  | cons c cs ih => simp [isPre, ih]

theorem isPre_trans {a b c : List Char} (h1 : isPre a b = true) (h2 : isPre b c = true) :
    isPre a c = true := by
  induction a generalizing b c with
  | nil => rfl
  | cons x xs ih =>
    cases b with
    | nil => simp [isPre] at h1
    | cons y ys =>
      cases c with
      | nil => simp [isPre] at h2
      | cons z zs =>
        simp only [isPre, Bool.and_eq_true, beq_iff_eq] at h1 h2 ⊢
        exact ⟨h1.1.trans h2.1, ih h1.2 h2.2⟩

theorem isPre_skip_newline : ∀ (needle : List Char), '\n' ∉ needle → ∀ (t b : List Char),
    isPre needle (t ++ '\n' :: b) = isPre needle t := by
  intro needle
  induction needle with
  | nil => intro _ t b; rfl
  | cons n ns ih =>
    intro hnl t b
    have hn : n ≠ '\n' := fun h => hnl (h ▸ List.mem_cons_self n ns)
    have hnl' : '\n' ∉ ns := fun h => hnl (List.mem_cons_of_mem n h)
    cases t with
    | nil => simp [isPre, hn]
    | cons x xs =>
      have h := ih hnl' xs b
      simp only [List.cons_append, isPre]
      simp only [List.append_eq]
      rw [h]

theorem countOcc_eq_zero_of_longer {needle : List Char} :
    ∀ {h : List Char}, h.length < needle.length → countOcc needle h = 0 := by
  intro h
  induction h with
  | nil =>
    intro hlen
    cases needle with
    | nil => simp at hlen
    | cons n ns => simp [countOcc, isPre]
  | cons c rest ih =>
    intro hlen
    have h1 : isPre needle (c :: rest) = false := by
      cases hx : isPre needle (c :: rest) with
      | false => rfl
      | true =>
        have := isPre_length hx
        simp only [List.length_cons] at hlen this
        omega
    have h2 : rest.length < needle.length := by
      simp only [List.length_cons] at hlen; omega
    simp [countOcc, h1, ih h2]

theorem countOcc_self {needle : List Char} (hne : needle ≠ []) :
    countOcc needle needle = 1 := by
  cases needle with
  | nil => exact absurd rfl hne
  | cons n ns =>
    have h1 : isPre (n :: ns) (n :: ns) = true := by
      simpa using isPre_self_append (n :: ns) []
    have h2 : countOcc (n :: ns) ns = 0 := countOcc_eq_zero_of_longer (by simp)
    simp [countOcc, h1, h2]

theorem countOcc_nil_right {needle : List Char} (hne : needle ≠ []) :
    countOcc needle [] = 0 := by
  cases needle with
  | nil => exact absurd rfl hne
  | cons n ns => simp [countOcc, isPre]

theorem countOcc_append_newline {needle : List Char} (hne : needle ≠ [])
    (hnl : '\n' ∉ needle) (a b : List Char) :
    countOcc needle (a ++ '\n' :: b) = countOcc needle a + countOcc needle b := by
  induction a with
  | nil =>
    have h1 : isPre needle ('\n' :: b) = false := by
      have h := isPre_skip_newline needle hnl [] b
      cases needle with
      | nil => exact absurd rfl hne
      | cons n ns => simpa [isPre] using h
    have h0 : isPre needle [] = false := by
      cases needle with
      | nil => exact absurd rfl hne
      | cons n ns => rfl
    simp [countOcc, h1, h0]
  | cons c rest ih =>
    have hp := isPre_skip_newline needle hnl (c :: rest) b
    simp only [List.cons_append] at hp ⊢
    simp only [countOcc]
    rw [ih, hp]
    omega

theorem countOcc_pos_iff (needle h : List Char) :
    0 < countOcc needle h ↔ containsSub needle h = true := by
  induction h with
  | nil => cases hx : isPre needle [] <;> simp [countOcc, containsSub, hx]
  | cons c rest ih =>
    cases hx : isPre needle (c :: rest) <;> simp [countOcc, containsSub, hx, ih]

theorem containsSub_append_right {needle b : List Char} (a : List Char)
    (h : containsSub needle b = true) : containsSub needle (a ++ b) = true := by
  induction a with
  | nil => simpa
  | cons x xs ih => simp [containsSub, ih]

theorem splitLines_ne_nil : ∀ (c : List Char), splitLines c ≠ [] := by
  intro c
  induction c with
  | nil => simp [splitLines]
  | cons x xs ih =>
    simp only [splitLines]
    split
    · simp
    · cases hx : splitLines xs with
      | nil => exact absurd hx ih
      | cons l ls => simp [hx]

theorem splitLines_head_isPre : ∀ (r l0 : List Char) (ls : List (List Char)),
    splitLines r = l0 :: ls → isPre l0 r = true := by
  intro r
  induction r with
  | nil =>
    intro l0 ls h
    simp [splitLines] at h
    rw [h.1]
    rfl
  | cons c rest ih =>
    intro l0 ls h
    simp only [splitLines] at h
    by_cases hc : c = '\n'
    · rw [if_pos hc] at h
      obtain ⟨h1, _⟩ := List.cons.inj h
      rw [← h1]
      rfl
    · rw [if_neg hc] at h
      cases hx : splitLines rest with
      | nil => exact absurd hx (splitLines_ne_nil rest)
      | cons m ms =>
        rw [hx] at h
        obtain ⟨h1, _⟩ := List.cons.inj h
        rw [← h1]
        simp [isPre, ih m ms hx]

theorem containsSub_line_false : ∀ (needle content : List Char),
    containsSub needle content = false →
    ∀ l ∈ splitLines content, containsSub needle l = false := by
  intro needle content
  induction content with
  | nil =>
    intro h l hl
    simp [splitLines] at hl
    rw [hl]
    exact h
  | cons c rest ih =>
    intro h l hl
    have hne : needle ≠ [] := by
      intro he
      rw [he, containsSub_nil_left] at h
      simp at h
    simp only [containsSub, Bool.or_eq_false_iff] at h
    simp only [splitLines] at hl
    by_cases hc : c = '\n'
    · rw [if_pos hc] at hl
      rcases List.mem_cons.mp hl with h1 | h1
      · rw [h1]
        cases needle with
        | nil => exact absurd rfl hne
        | cons n ns => rfl
      · exact ih h.2 l h1
    · rw [if_neg hc] at hl
      cases hx : splitLines rest with
      | nil => exact absurd hx (splitLines_ne_nil rest)
      | cons m ms =>
        rw [hx] at hl
        rcases List.mem_cons.mp hl with h1 | h1
        · rw [h1]
          simp only [containsSub, Bool.or_eq_false_iff]
          constructor
          · cases hp : isPre needle (c :: m) with
            | false => rfl
            | true =>
              exfalso
              have hm : isPre m rest = true := splitLines_head_isPre rest m ms hx
              have hcm : isPre (c :: m) (c :: rest) = true := by simp [isPre, hm]
              have hcontra : isPre needle (c :: rest) = true := isPre_trans hp hcm
              rw [h.1] at hcontra
              simp at hcontra
          · have hmem : m ∈ splitLines rest := by
              rw [hx]; exact List.mem_cons_self m ms
            exact ih h.2 m hmem
        · exact ih h.2 l (by rw [hx]; exact List.mem_cons_of_mem m h1)

theorem joinLines_splitLines : ∀ (c : List Char), joinLines (splitLines c) = c := by
  intro c
  induction c with
  | nil => rfl
  | cons x xs ih =>
    simp only [splitLines]
    by_cases hx : x = '\n'
    · rw [if_pos hx, hx]
      cases hs : splitLines xs with
      | nil => exact absurd hs (splitLines_ne_nil xs)
      | cons m ms =>
        rw [hs] at ih
        show joinLines ([] :: m :: ms) = '\n' :: xs
        rw [show joinLines ([] :: m :: ms) = [] ++ '\n' :: joinLines (m :: ms) from rfl]
        rw [ih]
        rfl
    · rw [if_neg hx]
      cases hs : splitLines xs with
      | nil => exact absurd hs (splitLines_ne_nil xs)
      | cons m ms =>
        rw [hs] at ih
        cases ms with
        | nil =>
          show joinLines [x :: m] = x :: xs
          have hm : m = xs := ih
          rw [show joinLines [x :: m] = x :: m from rfl, hm]
        | cons k ks =>
          show joinLines ((x :: m) :: k :: ks) = x :: xs
          rw [show joinLines ((x :: m) :: k :: ks) = (x :: m) ++ '\n' :: joinLines (k :: ks) from rfl]
          rw [show ((x :: m) ++ '\n' :: joinLines (k :: ks) : List Char)
              = x :: (m ++ '\n' :: joinLines (k :: ks)) from rfl]
          rw [show (m ++ '\n' :: joinLines (k :: ks) : List Char)
              = joinLines (m :: k :: ks) from rfl]
          rw [ih]

theorem removeLoop_no_marker {marker : List Char} :
    ∀ (ls : List (List Char)), (∀ l ∈ ls, containsSub marker l = false) →
      removeLoop marker false ls = ls := by
  intro ls
  induction ls with
  | nil => intro _; rfl
  | cons l rest ih =>
    intro h
    have h1 : containsSub marker l = false := h l (List.mem_cons_self l rest)
    simp only [removeLoop, h1]
    simp [ih (fun x hx => h x (List.mem_cons_of_mem l hx))]

theorem removeLoop_of_wf {marker : List Char} :
    ∀ {ls : List (List Char)}, MarkerWF marker ls →
      removeLoop marker false ls = specRemoveLines marker ls := by
  intro ls h
  induction h with
  | nil => rfl
  | plain h1 hrest ih =>
    rename_i l rest
    cases rest with
    | nil => simp [removeLoop, specRemoveLines, h1]
    | cons r rs =>
      have hk : removeLoop marker false (l :: r :: rs) = l :: removeLoop marker false (r :: rs) := by
        simp [removeLoop, h1]
      rw [hk, ih]
      simp [specRemoveLines, h1]
  | block h1 h2 h3 _ ih => simp [removeLoop, specRemoveLines, h1, h2, h3, ih]

theorem sortDesc_head_spec {α : Type} (f : α → Nat) :
    ∀ (cands : List α), cands ≠ [] →
      ∃ (b : α) (t : List (Nat × α)),
        sortDesc (cands.map (fun c => (f c, c))) = (f b, b) :: t ∧
        (∃ pre post, cands = pre ++ b :: post ∧ (∀ c ∈ pre, f c < f b)) ∧
        (∀ c ∈ cands, f c ≤ f b) := by
  intro cands
  induction cands with
  | nil => intro h; exact absurd rfl h
  | cons x xs ih =>
    intro _
    cases hxs : xs with
    | nil =>
      subst hxs
      refine ⟨x, [], by simp [sortDesc, insertDesc], ⟨[], [], rfl, by simp⟩, ?_⟩
      intro c hc
      simp at hc
      rw [hc]
    | cons y ys =>
      subst hxs
      obtain ⟨b, t, hsort, ⟨pre, post, hdec, hpre⟩, hmax⟩ := ih (by simp)
      by_cases hcmp : f x ≥ f b
      · refine ⟨x, (f b, b) :: t, ?_, ⟨[], y :: ys, rfl, by simp⟩, ?_⟩
        · rw [show sortDesc (List.map (fun c => (f c, c)) (x :: y :: ys))
              = insertDesc (f x, x) (sortDesc (List.map (fun c => (f c, c)) (y :: ys))) from rfl]
          rw [hsort]
          simp [insertDesc, hcmp]
        · intro c hc
          rcases List.mem_cons.mp hc with h1 | h1
          · rw [h1]
          · exact le_trans (hmax c h1) hcmp
      · have hlt : f x < f b := Nat.lt_of_not_le hcmp
        refine ⟨b, insertDesc (f x, x) t, ?_, ⟨x :: pre, post, ?_, ?_⟩, ?_⟩
        · rw [show sortDesc (List.map (fun c => (f c, c)) (x :: y :: ys))
              = insertDesc (f x, x) (sortDesc (List.map (fun c => (f c, c)) (y :: ys))) from rfl]
          rw [hsort]
          simp [insertDesc, hcmp]
        · rw [List.cons_append, ← hdec]
        · intro c hc
          rcases List.mem_cons.mp hc with h1 | h1
          · rw [h1]; exact hlt
          · exact hpre c h1
        · intro c hc
          rcases List.mem_cons.mp hc with h1 | h1
          · rw [h1]; exact le_of_lt hlt
          · exact hmax c h1

theorem scoreOf_le_of_not_exact {execName : List Char} {c : RawCand}
    (h : (lowerStr c.file == lowerStr execName) = false) : scoreOf execName c ≤ 75 := by
  cases h2 : containsSub (("bin").toList) c.root <;>
    cases h3 : helperSuffixes.any (fun suf => containsSub suf (lowerStr c.file)) <;>
      simp only [scoreOf, h, h2, h3] <;> decide

theorem scoreOf_ge_of_exact {execName : List Char} {c : RawCand}
    (h : (lowerStr c.file == lowerStr execName) = true) : 100 ≤ scoreOf execName c := by
  cases h2 : containsSub (("bin").toList) c.root <;>
    cases h3 : helperSuffixes.any (fun suf => containsSub suf (lowerStr c.file)) <;>
      simp only [scoreOf, h, h2, h3] <;> decide

theorem benpakMarker_eq (pid : List Char) :
    benpakMarker pid = '#' :: ((" BenPak - ").toList ++ pid) := rfl

theorem benpakMarker_ne_nil (pid : List Char) : benpakMarker pid ≠ [] := by
  rw [benpakMarker_eq]
  simp

theorem benpakMarker_no_newline {pid : List Char} (h : '\n' ∉ pid) :
    '\n' ∉ benpakMarker pid := by
  intro hm
  rw [benpakMarker] at hm
  rcases List.mem_append.mp hm with h1 | h1
  · exact absurd h1 (by decide)
  · exact h h1

/-! ## Claim theorems -/

/-- C1 (counterexample): the claim "after termination the engine waits the
grace period and re-verifies that no matching process remains before deleting
the subtree, aborting if one is alive" is false of the code: with a process
still matching after the grace period, the subtree is deleted anyway. -/
theorem C1_counterexample : ¬ C1claim := by
  intro h
  have hc := h ⟨⟨true, true, VFile.vAbsent⟩, true, [1], [], true, [1], true⟩
    rfl ⟨by decide, Or.inl rfl⟩ (by decide)
  exact hc.2 (by decide)

/-- C1 (amended): after a termination (forced, or chosen by the user with a
kill reported successful) the code sleeps the fixed 2-second grace period and
then deregisters and deletes the subtree without any re-verification — the
set of processes alive after the grace period is never consulted; the only
abort before deletion is the non-forced path whose kill reports failure,
which returns false leaving the subtree intact. -/
theorem C1_uninstall_no_reverify (e : UninstallEnv) (hdir : e.state.dirExists = true) :
    ((e.running ≠ [] ∧ e.forceKill = false ∧ pyStrip e.choiceRaw = ("1").toList ∧
        e.killSuccess = false) →
      uninstall_package e = ⟨UOutcome.ret false, e.state, false, false⟩) ∧
    ((e.running = [] ∨ e.forceKill = true ∨
        (pyStrip e.choiceRaw = ("1").toList ∧ e.killSuccess = true)) →
      e.rmtreeOk = true →
      (uninstall_package e).outcome = UOutcome.ret true ∧
      (uninstall_package e).state = removedState) := by
  constructor
  · rintro ⟨h1, h2, h3, h4⟩
    simp [uninstall_package, hdir, h1, h2, h3, h4]
  · rintro (h1 | h2 | ⟨h3, h4⟩) hrm
    · simp [uninstall_package, hdir, h1, uninstallProceed, hrm]
    · simp [uninstall_package, hdir, h2, uninstallProceed, hrm]
    · by_cases hr : e.running = []
      · simp [uninstall_package, hdir, hr, uninstallProceed, hrm]
      · cases hf : e.forceKill
        · simp [uninstall_package, hdir, hr, hf, h3, h4, uninstallProceed, hrm]
        · simp [uninstall_package, hdir, hr, hf, uninstallProceed, hrm]

/-- C1 (witness): a concrete non-forced uninstall whose kill succeeded but
whose package still has a matching process after the grace period; the
subtree is deleted and true returned. -/
theorem C1_uninstall_no_reverify_witness :
    (uninstall_package ⟨⟨true, true, VFile.vAbsent⟩, false, [7], ("1").toList, true, [7], true⟩).outcome
        = UOutcome.ret true ∧
    (uninstall_package ⟨⟨true, true, VFile.vAbsent⟩, false, [7], ("1").toList, true, [7], true⟩).state
        = removedState :=
  (C1_uninstall_no_reverify _ rfl).2 (Or.inr (Or.inr ⟨by decide, rfl⟩)) rfl

/-- C2 (counterexample): the claim "a content/kind mismatch fails before the
subtree is created or modified, for every declared kind" is false: an
appimage descriptor whose artifact is plain text installs without any error. -/
theorem C2_counterexample : ¬ C2claim := by
  intro h
  have hc := h ExtractMethod.appimage ContentKind.plainText ⟨true, true, []⟩
    removedState (by decide)
  exact absurd hc.1 (by decide)

/-- C2 (amended): only a tar_gz descriptor is content-verified before the
subtree is touched (via the `file(1)` output check at download time); for
tar_bz2, tar_xz and deb a mismatched artifact fails only inside extraction,
after the subtree has been cleared and recreated (cleanup then leaves no
subtree, destroying any previous install); for appimage no verification
occurs and the install succeeds on any content. -/
theorem C2_content_verification (m : ExtractMethod) (k : ContentKind)
    (env : ExtractEnv) (s : PkgState) :
    ((m = ExtractMethod.tar_gz ∧ fileReportsGzipOrTar k = false) →
      install_package m k true env s = (Except.error (), s, false)) ∧
    ((m = ExtractMethod.tar_bz2 ∨ m = ExtractMethod.tar_xz ∨ m = ExtractMethod.deb) →
      declaredKindMatches m k = false →
      install_package m k true env s = (Except.error (), removedState, true)) ∧
    (m = ExtractMethod.appimage → env.toolOk = true →
      (install_package m k true env s).1 = Except.ok true) := by
  refine ⟨?_, ?_, ?_⟩
  · rintro ⟨hm, hk⟩
    subst hm
    simp [install_package, download_package, hk]
  · rintro (hm | hm | hm) hmatch <;> subst hm <;> cases k <;>
      simp_all [install_package, download_package, extract_package, extractToolSucceeds,
        declaredKindMatches]
  · rintro hm htool
    subst hm
    cases k <;> simp [install_package, download_package, extract_package,
      extractToolSucceeds, htool]

/-- C2 (witness): a tar_bz2 descriptor whose artifact is plain text: the
install raises, but only after the pre-existing subtree was destroyed. -/
theorem C2_content_verification_witness :
    install_package ExtractMethod.tar_bz2 ContentKind.plainText true ⟨true, true, []⟩
        ⟨true, true, VFile.vReadable []⟩ = (Except.error (), removedState, true) :=
  (C2_content_verification ExtractMethod.tar_bz2 ContentKind.plainText ⟨true, true, []⟩
    ⟨true, true, VFile.vReadable []⟩).2.1 (Or.inl rfl) (by decide)

/-- C3: whenever `extract_package` fails, the except-block has removed the
partially populated subtree before the error propagates, so afterwards the
package is not reported as installed and has no version file. -/
theorem C3_extract_cleanup (m : ExtractMethod) (k : ContentKind) (env : ExtractEnv)
    (s : PkgState) (herr : (extract_package m k env s).1 = Except.error ()) :
    (extract_package m k env s).2 = removedState ∧
    is_package_installed (extract_package m k env s).2 = false ∧
    get_installed_version (extract_package m k env s).2 = none := by
  have hfail : (extractToolSucceeds m k && env.toolOk) = false := by
    cases hx : (extractToolSucceeds m k && env.toolOk) with
    | false => rfl
    | true =>
      exfalso
      simp only [extract_package, hx] at herr
      simp at herr
  have h2 : extract_package m k env s = (Except.error (), removedState) := by
    simp [extract_package, hfail]
  rw [h2]
  exact ⟨rfl, rfl, rfl⟩

/-- C3 (witness): extracting a tar_gz descriptor over a plain-text artifact
fails and leaves no subtree on disk. -/
theorem C3_extract_cleanup_witness :
    (extract_package ExtractMethod.tar_gz ContentKind.plainText ⟨true, true, []⟩
        ⟨true, true, VFile.vReadable []⟩).2 = removedState ∧
    is_package_installed (extract_package ExtractMethod.tar_gz ContentKind.plainText
        ⟨true, true, []⟩ ⟨true, true, VFile.vReadable []⟩).2 = false ∧
    get_installed_version (extract_package ExtractMethod.tar_gz ContentKind.plainText
        ⟨true, true, []⟩ ⟨true, true, VFile.vReadable []⟩).2 = none :=
  C3_extract_cleanup ExtractMethod.tar_gz ContentKind.plainText ⟨true, true, []⟩
    ⟨true, true, VFile.vReadable []⟩ (by decide)

/-- C7: uninstalling an identifier whose subtree directory does not exist
returns false, raises no error, and modifies nothing. -/
theorem C7_uninstall_missing (e : UninstallEnv) (h : e.state.dirExists = false) :
    uninstall_package e = ⟨UOutcome.ret false, e.state, false, false⟩ := by
  simp [uninstall_package, h]

/-- C7 (witness): concrete never-installed identifier. -/
theorem C7_uninstall_missing_witness :
    uninstall_package ⟨⟨false, false, VFile.vAbsent⟩, false, [], [], false, [], true⟩
      = ⟨UOutcome.ret false, ⟨false, false, VFile.vAbsent⟩, false, false⟩ :=
  C7_uninstall_missing ⟨⟨false, false, VFile.vAbsent⟩, false, [], [], false, [], true⟩ rfl

/-- C9: with no matching process and a removable directory, the early false
return happens exactly when the directory does not exist; in particular for
an existing-but-empty directory (not "installed" by the installed-check) the
uninstall proceeds, deregisters PATH and desktop entries, removes the
directory and returns true. -/
theorem C9_uninstall_empty_dir (e : UninstallEnv) (hrun : e.running = [])
    (hrm : e.rmtreeOk = true) :
    ((uninstall_package e).outcome = UOutcome.ret false ↔ e.state.dirExists = false) ∧
    (e.state.dirExists = true → e.state.dirNonempty = false →
      is_package_installed e.state = false ∧
      uninstall_package e = ⟨UOutcome.ret true, removedState, true, true⟩) := by
  constructor
  · cases hd : e.state.dirExists
    · simp [uninstall_package, hd]
    · simp [uninstall_package, hd, hrun, uninstallProceed, hrm]
  · intro hd hne
    refine ⟨by simp [is_package_installed, hne], ?_⟩
    simp [uninstall_package, hd, hrun, uninstallProceed, hrm]

/-- C9 (witness): concrete existing-but-empty subtree directory. -/
theorem C9_uninstall_empty_dir_witness :
    is_package_installed (⟨true, false, VFile.vAbsent⟩ : PkgState) = false ∧
    uninstall_package ⟨⟨true, false, VFile.vAbsent⟩, false, [], [], false, [], true⟩
      = ⟨UOutcome.ret true, removedState, true, true⟩ :=
  (C9_uninstall_empty_dir ⟨⟨true, false, VFile.vAbsent⟩, false, [], [], false, [], true⟩
    rfl rfl).2 rfl rfl

/-- C10: `get_installed_version` is a total function: it returns the stripped
text of a readable `.version` file, and `none` — rather than raising — when
the file is absent or unreadable. -/
theorem C10_get_installed_version (s : PkgState) :
    (∀ c, s.version = VFile.vReadable c → get_installed_version s = some (pyStrip c)) ∧
    (s.version = VFile.vAbsent ∨ s.version = VFile.vUnreadable →
      get_installed_version s = none) := by
  constructor
  · intro c hc
    simp [get_installed_version, hc, versionFileExists, readVersionText]
  · rintro (h | h) <;> simp [get_installed_version, h, versionFileExists, readVersionText]

/-- C10 (witness): concrete readable and unreadable version files. -/
theorem C10_get_installed_version_witness :
    get_installed_version ⟨true, true, VFile.vReadable ((" 1.2.3\n").toList)⟩
        = some (("1.2.3").toList) ∧
    get_installed_version ⟨true, true, VFile.vUnreadable⟩ = none := by
  constructor
  · exact ((C10_get_installed_version ⟨true, true, VFile.vReadable ((" 1.2.3\n").toList)⟩).1
      ((" 1.2.3\n").toList) rfl).trans (by decide)
  · exact (C10_get_installed_version ⟨true, true, VFile.vUnreadable⟩).2 (Or.inr rfl)

/-- C8: `check_for_updates` compares versions by plain string inequality: for
an installed package with truthy installed and latest version strings, an
update entry is reported exactly when the two strings differ — so a remote
version older than the installed one is also reported. -/
theorem C8_plain_string_inequality (pkgs : List AvailPkg) (st : List Char → PkgState)
    (p : AvailPkg) (iv lv : List Char) (hp : p ∈ pkgs)
    (hinst : is_package_installed (st p.pid) = true)
    (hiv : get_installed_version (st p.pid) = some iv) (hivne : iv ≠ [])
    (hlv : p.version = some lv) (hlvne : lv ≠ []) :
    ((⟨p, iv, lv⟩ : UpdateEntry) ∈ check_for_updates pkgs st ↔ iv ≠ lv) := by
  constructor
  · intro hmem
    obtain ⟨a, ha, hfa⟩ := List.mem_filterMap.mp hmem
    cases hia : is_package_installed (st a.pid) with
    | false => rw [hia] at hfa; simp at hfa
    | true =>
      rw [hia] at hfa
      simp only [if_true] at hfa
      cases hgi : get_installed_version (st a.pid) with
      | none => rw [hgi] at hfa; simp at hfa
      | some iva =>
        cases hva : a.version with
        | none => rw [hgi, hva] at hfa; simp at hfa
        | some lva =>
          rw [hgi, hva] at hfa
          simp only [] at hfa
          split at hfa
          · rename_i hcond
            simp only [Option.some.injEq, UpdateEntry.mk.injEq] at hfa
            obtain ⟨hap, hiva, hlva⟩ := hfa
            rw [← hiva, ← hlva]
            exact hcond.2.2
          · simp at hfa
  · intro hneq
    apply List.mem_filterMap.mpr
    refine ⟨p, hp, ?_⟩
    rw [hinst]
    simp only [if_true]
    rw [hiv, hlv]
    simp [hivne, hlvne, hneq]

/-- C8 (witness): an installed version 1.2.0 with a remote latest version
1.0.0 (older as a version, unequal as a string) is reported as an update. -/
theorem C8_plain_string_inequality_witness :
    (⟨⟨("vscode").toList, some (("1.0.0").toList)⟩, ("1.2.0").toList,
        ("1.0.0").toList⟩ : UpdateEntry)
      ∈ check_for_updates [⟨("vscode").toList, some (("1.0.0").toList)⟩]
          (fun _ => ⟨true, true, VFile.vReadable (("1.2.0\n").toList)⟩) :=
  (C8_plain_string_inequality [⟨("vscode").toList, some (("1.0.0").toList)⟩]
      (fun _ => ⟨true, true, VFile.vReadable (("1.2.0\n").toList)⟩)
      ⟨("vscode").toList, some (("1.0.0").toList)⟩ (("1.2.0").toList) (("1.0.0").toList)
      (List.mem_cons_self _ _) rfl (by decide) (by decide) rfl (by decide)).mpr (by decide)

/-- C4: registering a package's PATH entry twice against the same startup
file is idempotent — the second invocation returns false and leaves the
content unchanged — and starting from a file without the marker, the file
afterwards contains exactly one marker occurrence, never two. -/
theorem C4_register_idempotent (pid execDir : List Char) (isFish : Bool)
    (content : List Char) (hnl : '\n' ∉ pid)
    (hexp : countOcc (benpakMarker pid) (exportLineFor isFish execDir) = 0) :
    (addAppPathToShellConfig pid execDir isFish
        ((addAppPathToShellConfig pid execDir isFish content).2)
      = (false, (addAppPathToShellConfig pid execDir isFish content).2)) ∧
    (containsSub (benpakMarker pid) content = false →
      countOcc (benpakMarker pid) ((addAppPathToShellConfig pid execDir isFish content).2) = 1) := by
  have hne := benpakMarker_ne_nil pid
  have hnlm := benpakMarker_no_newline hnl
  cases hc : containsSub (benpakMarker pid) content with
  | true =>
    have h1 : addAppPathToShellConfig pid execDir isFish content = (false, content) := by
      simp [addAppPathToShellConfig, hc]
    rw [h1]
    refine ⟨by simp [addAppPathToShellConfig, hc], ?_⟩
    intro hcontra
    simp at hcontra
  | false =>
    have h1 : addAppPathToShellConfig pid execDir isFish content =
        (true, ensureTrailingNewline content ++
          '\n' :: (benpakMarker pid ++ '\n' :: (exportLineFor isFish execDir ++ ['\n']))) := by
      simp [addAppPathToShellConfig, hc]
    have hc0 : countOcc (benpakMarker pid) content = 0 := by
      by_contra h0
      have hpos : 0 < countOcc (benpakMarker pid) content := Nat.pos_of_ne_zero h0
      have := (countOcc_pos_iff (benpakMarker pid) content).mp hpos
      rw [hc] at this
      simp at this
    have hz : countOcc (benpakMarker pid) [] = 0 := countOcc_nil_right hne
    have hcE : countOcc (benpakMarker pid) (ensureTrailingNewline content) = 0 := by
      unfold ensureTrailingNewline
      split
      · rw [show (content ++ ['\n'] : List Char) = content ++ '\n' :: [] from rfl]
        rw [countOcc_append_newline hne hnlm]
        rw [hc0, hz]
      · exact hc0
    have hcount : countOcc (benpakMarker pid)
        (ensureTrailingNewline content ++
          '\n' :: (benpakMarker pid ++ '\n' :: (exportLineFor isFish execDir ++ ['\n']))) = 1 := by
      rw [countOcc_append_newline hne hnlm]
      rw [countOcc_append_newline hne hnlm]
      rw [show (exportLineFor isFish execDir ++ ['\n'] : List Char)
            = exportLineFor isFish execDir ++ '\n' :: [] from rfl]
      rw [countOcc_append_newline hne hnlm]
      rw [countOcc_self hne, hcE, hexp, hz]
    have hcontains : containsSub (benpakMarker pid)
        (ensureTrailingNewline content ++
          '\n' :: (benpakMarker pid ++ '\n' :: (exportLineFor isFish execDir ++ ['\n']))) = true := by
      apply (countOcc_pos_iff _ _).mp
      rw [hcount]
      norm_num
    rw [h1]
    refine ⟨by simp [addAppPathToShellConfig, hcontains], ?_⟩
    intro _
    exact hcount

/-- C4 (witness): registering discord twice on an initially empty startup
file: the second call is a no-op returning false, and exactly one marker
occurrence is present. -/
theorem C4_register_idempotent_witness :
    (addAppPathToShellConfig (("discord").toList) (("/home/u/Programs/discord").toList) false
        ((addAppPathToShellConfig (("discord").toList)
          (("/home/u/Programs/discord").toList) false []).2)
      = (false, (addAppPathToShellConfig (("discord").toList)
          (("/home/u/Programs/discord").toList) false []).2)) ∧
    countOcc (benpakMarker (("discord").toList))
      ((addAppPathToShellConfig (("discord").toList)
        (("/home/u/Programs/discord").toList) false []).2) = 1 := by
  have h := C4_register_idempotent (("discord").toList) (("/home/u/Programs/discord").toList)
    false [] (by decide) (by decide)
  exact ⟨h.1, h.2 (by decide)⟩

/-- C5 (counterexample): the claim "deregister removes exactly the marker line
and the line immediately following it" is false of the code: when a non-export
line sits between the marker and the export statement, the code keeps the
immediately-following line and instead removes the later export line. -/
theorem C5_counterexample : ¬ C5claim := by
  intro h
  have h1 := (h (("foo").toList)
      (("# BenPak - foo\necho hi\nexport PATH=\"/x:$PATH\"").toList)).1
  exact absurd h1 (by decide)

/-- C5 (amended): a missing marker makes deregistration a no-op returning
false; and on well-formed contents — where each marker line is immediately
followed by an export line, as `register` writes them — the code removes
exactly the marker line and the line immediately following it at every
occurrence, leaving all other lines unchanged.  In general the code removes,
after each marker line, the next later line containing `"export PATH="` or
`"set -gx PATH"` rather than the immediately following line. -/
theorem C5_deregister (pid content : List Char) :
    (containsSub (benpakMarker pid) content = false →
      removeAppPathFromShellConfig pid content = (false, content)) ∧
    (MarkerWF (benpakMarker pid) (splitLines content) →
      (removeAppPathFromShellConfig pid content).2
        = joinLines (specRemoveLines (benpakMarker pid) (splitLines content))) := by
  constructor
  · intro h
    have hlines := containsSub_line_false (benpakMarker pid) content h
    have hloop := removeLoop_no_marker (splitLines content) hlines
    unfold removeAppPathFromShellConfig
    rw [hloop, joinLines_splitLines]
    simp
  · intro hwf
    unfold removeAppPathFromShellConfig
    rw [removeLoop_of_wf hwf]

/-- C5 (witness): on a well-formed startup file the marker line and its
immediately following export line are removed, leaving the other lines. -/
theorem C5_deregister_witness :
    (removeAppPathFromShellConfig (("foo").toList)
        (("# BenPak - foo\nexport PATH=\"/x:$PATH\"\nalias ll").toList)).2
      = ("alias ll").toList := by
  have hwf : MarkerWF (benpakMarker (("foo").toList))
      (splitLines (("# BenPak - foo\nexport PATH=\"/x:$PATH\"\nalias ll").toList)) := by
    rw [(by decide : splitLines (("# BenPak - foo\nexport PATH=\"/x:$PATH\"\nalias ll").toList)
        = [("# BenPak - foo").toList, ("export PATH=\"/x:$PATH\"").toList, ("alias ll").toList])]
    exact MarkerWF.block (by decide) (by decide) (by decide)
      (MarkerWF.plain (by decide) MarkerWF.nil)
  exact ((C5_deregister (("foo").toList)
    (("# BenPak - foo\nexport PATH=\"/x:$PATH\"\nalias ll").toList)).2 hwf).trans (by decide)

/-- C6: the resolver scores each filtered candidate by +100 for an exact
case-insensitive name match, +50 for a walk root containing "bin", +25 for no
helper-tool pattern in the name, and selects the candidate with the highest
score, ties broken by search order (Python's stable sort); in particular when
an exactly-named candidate exists it is always selected over merely
name-prefixed ones. -/
theorem C6_executable_scoring (execName : List Char) (cands : List RawCand)
    (hne : cands ≠ [])
    (hfilter : ∀ c ∈ cands, passesNameFilter execName c = true) :
    ∃ s b, selectExecutable execName cands = some (s, b) ∧ b ∈ cands ∧
      s = scoreOf execName b ∧
      (∀ c ∈ cands, scoreOf execName c ≤ s) ∧
      (∃ pre post, cands = pre ++ b :: post ∧ ∀ c ∈ pre, scoreOf execName c < s) ∧
      ((∃ c ∈ cands, lowerStr c.file = lowerStr execName) →
        lowerStr b.file = lowerStr execName) := by
  obtain ⟨b, t, hsort, ⟨pre, post, hdec, hpre⟩, hmax⟩ :=
    sortDesc_head_spec (scoreOf execName) cands hne
  refine ⟨scoreOf execName b, b, ?_, ?_, rfl, hmax, ⟨pre, post, hdec, hpre⟩, ?_⟩
  · simp [selectExecutable, hsort]
  · rw [hdec]
    exact List.mem_append.mpr (Or.inr (List.mem_cons_self b post))
  · rintro ⟨c, hc, hcex⟩
    by_contra hb
    have hbne : (lowerStr b.file == lowerStr execName) = false := by
      cases hx : (lowerStr b.file == lowerStr execName) with
      | false => rfl
      | true => exact absurd (by simpa using hx) hb
    have h100 : 100 ≤ scoreOf execName c := scoreOf_ge_of_exact (by simpa using hcex)
    have h75 := scoreOf_le_of_not_exact hbne
    have hle := hmax c hc
    omega

/-- C6 (witness): with a name-prefixed helper (code-insiders) found first and
an exactly-named executable (code) found later, the exact match is selected. -/
theorem C6_executable_scoring_witness :
    ∃ s b, selectExecutable (("code").toList)
        [⟨("code-insiders").toList, ("/r/pkg/bin").toList⟩,
         ⟨("code").toList, ("/r/pkg/bin").toList⟩] = some (s, b) ∧
      lowerStr b.file = lowerStr (("code").toList) := by
  obtain ⟨s, b, h1, _, _, _, _, h6⟩ :=
    C6_executable_scoring (("code").toList)
      [⟨("code-insiders").toList, ("/r/pkg/bin").toList⟩,
       ⟨("code").toList, ("/r/pkg/bin").toList⟩] (by decide) (by decide)
  exact ⟨s, b, h1, h6 (by decide)⟩
